import Mathlib

/-!
# Verification of the family-days-reminder recurring reminder scheduler

Shallow embedding of the core scheduler of the repository
(`src/functions/src/index.ts`, plus the Hebrew-date utilities duplicated in
the unnamed library files).  Dates are modelled as records together with an
absolute-day-number ("Rata Die") timeline shared by the Gregorian and the
Hebrew calendar, so that the JavaScript `Date` subtraction
`(a.getTime() - b.getTime()) / 86400000` between two civil midnights becomes
a subtraction of absolute day numbers.

The Hebrew calendar conversion is provided by the external `@hebcal/core`
library, which is not part of the repository.  Modelled from the spec:
the Calendar Converter of section 4.1 — deterministic Gregorian/alternate
conversion, leap years over the 19-year cycle, and the documented fallback
policy for the intercalary month (an intercalary-month date falls back to
the ordinary variant of the month in a non-leap year).  The arithmetic below
is the classical molad computation that the library implements.
-/

deriving instance DecidableEq for Except

namespace FamilyDays

/-! ## Gregorian dates -/

/-- Gregorian leap year. -/
def gregLeap (y : Nat) : Bool :=
  (y % 4 == 0 && y % 100 != 0) || (y % 400 == 0)

/-- A civil (Gregorian) calendar day.  JavaScript `Date` months are 0-based;
the model stores the 1-based month, a pure relabelling. -/
structure GDate where
  year : Nat
  month : Nat
  day : Nat
deriving DecidableEq, Repr

/-- Absolute day number (Rata Die: day 1 = January 1 of year 1) of a
Gregorian date.  The formula extends day/month overflow linearly, exactly as
the JavaScript `Date(year, month, day)` constructor normalises overflow. -/
def gregAbsN (y m d : Nat) : Nat :=
  365 * (y - 1) + (y - 1) / 4 - (y - 1) / 100 + (y - 1) / 400
    + (367 * m - 362) / 12
    - (if m > 2 then (if gregLeap y then 1 else 2) else 0)
    + d

def absOfGDate (g : GDate) : Int :=
  (gregAbsN g.year g.month g.day : Int)

/-! ## Hebrew calendar arithmetic (model of `@hebcal/core`) -/

/-- Leap year of the Hebrew calendar (19-year cycle). -/
def hebLeap (y : Nat) : Bool := (7 * y + 1) % 19 < 7

/-- Days from the Hebrew epoch to the (unpostponed-then-molad-postponed)
new year of Hebrew year `y`: the classical elapsed-days computation. -/
def hebElapsedDays (y : Nat) : Nat :=
  let monthsElapsed := (235 * y - 234) / 19
  let partsElapsed := 12084 + 13753 * monthsElapsed
  let days := 29 * monthsElapsed + partsElapsed / 25920
  if (3 * (days + 1)) % 7 < 3 then days + 1 else days

/-- The remaining Rosh Hashanah postponements, expressed through the length
of the adjacent years (the formulation used by the library). -/
def hebNewYearDelay (y : Nat) : Nat :=
  let ny0 := hebElapsedDays (y - 1)
  let ny1 := hebElapsedDays y
  let ny2 := hebElapsedDays (y + 1)
  if ny2 - ny1 == 356 then 2 else if ny1 - ny0 == 382 then 1 else 0

/-- Day number (from the Hebrew epoch) of 1 Tishrei of Hebrew year `y`. -/
def hebRosh (y : Nat) : Nat := hebElapsedDays y + hebNewYearDelay y

/-- Offset placing the Hebrew epoch on the Rata Die timeline
(calibrated so that 1 Tishrei 5786 is 23 September 2025). -/
def hebEpoch : Int := -1373427

/-- Absolute (Rata Die) day of 1 Tishrei of Hebrew year `y`. -/
def hebYearStart (y : Nat) : Int := hebEpoch + (hebRosh y : Int)

/-- Length in days of Hebrew year `y`. -/
def hebYearLength (y : Nat) : Nat := hebRosh (y + 1) - hebRosh y

/-- Length of month `m` (1 = Nisan, …, 7 = Tishrei, …, 12 = Adar/Adar I,
13 = Adar II) in Hebrew year `y`. -/
def hebMonthLength (y m : Nat) : Nat :=
  match m with
  | 1 => 30 | 2 => 29 | 3 => 30 | 4 => 29 | 5 => 30 | 6 => 29
  | 7 => 30
  | 8 => if hebYearLength y % 10 == 5 then 30 else 29
  | 9 => if hebYearLength y % 10 == 3 then 29 else 30
  | 10 => 29 | 11 => 30
  | 12 => if hebLeap y then 30 else 29
  | _ => 29

/-- The months of Hebrew year `y` in calendar order (the year begins with
Tishrei; the intercalary month 13 is present only in leap years). -/
def hebMonthOrder (y : Nat) : List Nat :=
  [7, 8, 9, 10, 11, 12] ++ (if hebLeap y then [13] else []) ++ [1, 2, 3, 4, 5, 6]

/-- Fallback policy for month numbers that do not exist in year `y`
(spec 4.1): an intercalary-month date falls back to the ordinary variant of
the month in a non-leap year; out-of-range numbers are clamped. -/
def hebNormMonth (y m : Nat) : Nat :=
  if m == 13 && !hebLeap y then 12
  else if m < 1 then 1
  else if m > 13 then 13
  else m

/-- Days of year `y` that precede month `m` (with `m` already normalised). -/
def hebDaysBeforeMonth (y m : Nat) : Nat :=
  ((hebMonthOrder y).takeWhile (fun mm => mm != m)).foldl
    (fun acc mm => acc + hebMonthLength y mm) 0

/-- Absolute (Rata Die) day of the Hebrew date `(y, m, d)`; this is the
civil midnight that `new HDate(d, m, y).greg()` returns. -/
def hebAbs (y m d : Nat) : Int :=
  hebYearStart y + (hebDaysBeforeMonth y (hebNormMonth y m) : Int) + ((d - 1 : Nat) : Int)

/-- Upward search for the Hebrew year containing a given day number from
the Hebrew epoch, as in the library's abs-to-Hebrew conversion
(approximation followed by a linear scan). -/
def hebYearOfAux : Nat → Nat → Nat → Nat
  | 0, y, _ => y
  | fuel + 1, y, a => if hebRosh (y + 1) ≤ a then hebYearOfAux fuel (y + 1) a else y

/-- Hebrew year containing the absolute day `t` (the `getFullYear()` of
`new HDate(date)`).  The start point underestimates the year by the average
year length 179876755/492480 days; the scan moves up from there. -/
def hebYearOf (t : Int) : Nat :=
  let a := (t - hebEpoch).toNat
  let y0 := max 1 (a * 492480 / 179876755)
  hebYearOfAux (a + 1) y0 a

/-- Month and day within year `y` after `r` full days have elapsed since
1 Tishrei. -/
def hebMonthDayAux (y : Nat) : List Nat → Nat → Nat × Nat
  | [], r => (6, r + 1)
  | m :: ms, r =>
    if r < hebMonthLength y m then (m, r + 1)
    else hebMonthDayAux y ms (r - hebMonthLength y m)

/-- The Hebrew date record stored on events (`HebrewDateInfo` in
`types.ts`; the scheduler reads only `day`, `month` and `year`). -/
structure HebrewDateInfo where
  day : Nat
  month : Nat
  year : Nat
deriving DecidableEq, Repr

/-- `new HDate(date)`: the Hebrew date of the civil day with absolute
number `t`. -/
def toHebrewDate (t : Int) : HebrewDateInfo :=
  let y := hebYearOf t
  let r := (t - hebYearStart y).toNat
  let md := hebMonthDayAux y (hebMonthOrder y) r
  ⟨md.2, md.1, y⟩

/-! ## Next Hebrew occurrence (`getNextHebrewOccurrence`, two source variants)

Both variants build the candidate in the current Hebrew year.  The first
rolls over to the next Hebrew year when the candidate's Gregorian civil day
is strictly before today's (`nextGreg < todayGreg`).  The second guards the
rollover with `nextHd.before(now.prev())` — but the library's
`HDate.before` expects a *weekday number* (Sunday = 0, …) and returns an
`HDate`, so handing it an `HDate` never produces a date comparison: the
call yields an object (from NaN weekday arithmetic), and an object is
always truthy as a JavaScript condition, so the rollover branch is always
taken. -/

/-- First source variant: rollover when the candidate's Gregorian
equivalent is strictly before today's. -/
def getNextHebrewOccurrence (day month : Nat) (todayAbs : Int) : Int :=
  let currentHebrewYear := hebYearOf todayAbs
  let next := hebAbs currentHebrewYear month day
  if next < todayAbs then hebAbs (currentHebrewYear + 1) month day else next

/-- The second variant's rollover guard `nextHd.before(now.prev())`:
`HDate.before` takes a weekday number and returns an `HDate`; with an
`HDate` argument it still returns an object, and any object is truthy, so
as a condition the call is constantly true.  (Library versions that
validate their numeric inputs would instead throw on the NaN weekday, and
the function would return no date at all; on neither reading is the
comparison `candidate < today − 1` ever computed, and on neither reading
is a past date ever returned.) -/
def hdateBeforeTruthy : Bool := true

/-- Second source variant: the candidate is built in the current Hebrew
year and then — the guard being constantly truthy — unconditionally
rebuilt in the next Hebrew year. -/
def getNextHebrewOccurrenceV2 (day month : Nat) (todayAbs : Int) : Int :=
  let currentHebrewYear := hebYearOf todayAbs
  let nextHd := hebAbs currentHebrewYear month day
  if hdateBeforeTruthy then hebAbs (currentHebrewYear + 1) month day else nextHd

/-! ## Scheduler data model (`src/functions/src/index.ts`) -/

/-- One custom reminder rule (`reminderConfig.reminders[i]`). -/
structure Reminder where
  daysBefore : Int
  timeOfDay : String
deriving DecidableEq, Repr

/-- `event.reminderConfig`. -/
structure ReminderConfig where
  isEnabled : Bool
  reminders : List Reminder
deriving DecidableEq, Repr

/-- An event document.  Optional fields model documents in which the field
is absent (or, for `userId`, empty/falsy). -/
structure Event where
  id : String
  userId : Option String
  title : String
  useHebrewDate : Bool
  hebrewDate : Option HebrewDateInfo
  gregorianDate : Option GDate
  reminderConfig : Option ReminderConfig
deriving DecidableEq, Repr

/-- A user document as read by the scheduler: `email` and `phone` are the
destinations (`none` models an absent or empty — falsy — value) and
`notificationMethods` is `preferences?.notificationMethods`. -/
structure UserData where
  email : Option String
  phone : Option String
  notificationMethods : Option (List String)
deriving DecidableEq, Repr

/-- One entry of the `notificationLogs` collection.  The server-assigned
`sentAt` timestamp is external and not modelled; the source writes
`timeOfDay`/`daysUntil` only on the success path, hence the options. -/
structure LogEntry where
  userId : String
  eventId : String
  method : String
  status : String
  messageContent : String
  error : Option String
  timeOfDay : Option String
  daysUntil : Option Int
deriving DecidableEq, Repr

/-- The `notificationLogs` collection: an association list from document
key to entry, written by prepending (a key is written at most once, since
the scheduler writes only keys whose existence check failed). -/
def Ledger := List (String × LogEntry)

instance : DecidableEq Ledger := by unfold Ledger; infer_instance

/-- `db.collection('notificationLogs').doc(k).get().exists`. -/
def hasKey (L : Ledger) (k : String) : Bool := L.any (fun p => p.1 == k)

/-- `db.collection('notificationLogs').doc(k).get().data()`. -/
def lookupEntry (L : Ledger) (k : String) : Option LogEntry :=
  (L.find? (fun p => p.1 == k)).map (fun p => p.2)

/-! ## Occurrence calculator and message composition -/

/-- `getDaysUntilEvent(event, today)`.  `today` is already normalised to
start of day, so the millisecond difference divided by a day length is the
exact difference of absolute day numbers.  An alternate-calendar event with
the Hebrew date absent silently falls through to the Gregorian branch; a
missing `gregorianDate` there makes `.toDate()` throw, modelled as
`Except.error`. -/
def getDaysUntilEvent (ev : Event) (today : GDate) : Except String Int :=
  match ev.useHebrewDate, ev.hebrewDate with
  | true, some h =>
    let currentYearHebrew := hebYearOf (absOfGDate today)
    Except.ok (hebAbs currentYearHebrew h.month h.day - absOfGDate today)
  | _, _ =>
    match ev.gregorianDate with
    | none => Except.error "TypeError: event.gregorianDate is undefined"
    | some g =>
      Except.ok (absOfGDate ⟨today.year, g.month, g.day⟩ - absOfGDate today)

/-- The current-year candidate occurrence that `getDaysUntilEvent`
measures against `today` (the code substitutes the current Hebrew or
Gregorian year and never rebuilds in the following year). -/
def currentYearCandidate (ev : Event) (today : GDate) : Except String Int :=
  match ev.useHebrewDate, ev.hebrewDate with
  | true, some h =>
    Except.ok (hebAbs (hebYearOf (absOfGDate today)) h.month h.day)
  | _, _ =>
    match ev.gregorianDate with
    | none => Except.error "TypeError: event.gregorianDate is undefined"
    | some g => Except.ok (absOfGDate ⟨today.year, g.month, g.day⟩)

/-- `generateMessage(event, daysUntil, timeOfDay)`. -/
def generateMessage (ev : Event) (daysUntil : Int) (timeOfDay : String) : String :=
  let eventName := ev.title
  if daysUntil = 3 then
    "📅 Heads up! " ++ eventName ++ " is in 3 days. Start planning!"
  else if daysUntil = 1 then
    "⏰ Reminder: " ++ eventName ++ " is TOMORROW! Don't forget!"
  else if daysUntil = 0 then
    if timeOfDay = "morning" then
      "🎉 Good morning! Today is " ++ eventName ++ "! Have a wonderful day!"
    else if timeOfDay = "afternoon" then
      "☀️ Afternoon reminder: It's " ++ eventName ++ " today! Hope it's going great!"
    else
      "🌙 Evening check-in: " ++ eventName ++ " is today! Hope you celebrated well!"
  else
    "Reminder: " ++ eventName ++ " is coming up in " ++ toString daysUntil ++ " days."

/-! ## Notification dispatch and the idempotency ledger -/

def pad2 (n : Nat) : String := if n < 10 then "0" ++ toString n else toString n

/-- `today.toISOString().split('T')[0]`: the `YYYY-MM-DD` day string.
(`today` is local midnight; in the scheduler's US-Eastern timezone the UTC
instant falls on the same calendar day.) -/
def isoDay (g : GDate) : String :=
  toString g.year ++ "-" ++ pad2 g.month ++ "-" ++ pad2 g.day

/-- The idempotency-ledger key
`` `${eventId}_${daysUntil}_${timeOfDay}_${method}_${today…}` ``. -/
def logKey (eventId : String) (daysUntil : Int) (timeOfDay method : String)
    (today : GDate) : String :=
  eventId ++ "_" ++ toString daysUntil ++ "_" ++ timeOfDay ++ "_" ++ method
    ++ "_" ++ isoDay today

/-- The three channel providers (Twilio WhatsApp, Twilio SMS, Resend
email), each `send(to, body)` returning an id or throwing; the environment
determines each call's outcome. -/
structure SendEnv where
  sendEmail : String → String → Except String Unit
  sendSMS : String → String → Except String Unit
  sendWhatsApp : String → String → Except String Unit

/-- One element of the `results` array of `sendNotifications`. -/
structure NotificationResult where
  method : String
  success : Bool
  error : Option String
deriving DecidableEq, Repr

/-- The `switch (method)` body: `none` when no provider call is made (the
destination is absent/falsy, or the method is unknown); otherwise the
outcome of the single provider call. -/
def channelAttempt (env : SendEnv) (u : UserData) (method msg : String) :
    Option (Except String Unit) :=
  match method with
  | "email" => u.email.map (fun e => env.sendEmail e msg)
  | "sms" => u.phone.map (fun p => env.sendSMS p msg)
  | "whatsapp" => u.phone.map (fun p => env.sendWhatsApp p msg)
  | _ => none

/-- The entry written on the success path (note that the source writes it
after the `switch` falls through even when no send was made). -/
def sentEntry (userId eventId method msg timeOfDay : String) (daysUntil : Int) :
    LogEntry :=
  ⟨userId, eventId, method, "sent", msg, none, some timeOfDay, some daysUntil⟩

/-- The entry written in the `catch` block. -/
def failedEntry (userId eventId method msg err : String) : LogEntry :=
  ⟨userId, eventId, method, "failed", msg, some err, none, none⟩

/-- One iteration of the `for (const method of methods)` loop: existence
check on the idempotency key, the `try { switch … ; log sent } catch
{ log failed }` body, threading the ledger and the `results` array. -/
def processMethod (env : SendEnv) (u : UserData)
    (msg eventId userId : String) (daysUntil : Int) (timeOfDay : String)
    (today : GDate) (st : Ledger × List NotificationResult) (method : String) :
    Ledger × List NotificationResult :=
  let key := logKey eventId daysUntil timeOfDay method today
  if hasKey st.1 key then st
  else
    match channelAttempt env u method msg with
    | some (Except.ok _) =>
      ((key, sentEntry userId eventId method msg timeOfDay daysUntil) :: st.1,
        st.2 ++ [⟨method, true, none⟩])
    | some (Except.error e) =>
      ((key, failedEntry userId eventId method msg e) :: st.1,
        st.2 ++ [⟨method, false, some e⟩])
    | none =>
      ((key, sentEntry userId eventId method msg timeOfDay daysUntil) :: st.1,
        st.2)

/-- `userData.preferences?.notificationMethods || ['whatsapp']` (an absent
list defaults to WhatsApp; an empty array is truthy in JavaScript and is
kept). -/
def methodsOf (u : UserData) : List String :=
  u.notificationMethods.getD ["whatsapp"]

/-- `sendNotifications(userData, message, eventId, userId, daysUntil,
timeOfDay, today)`, returning the updated ledger and the `results` array
(one element per provider call actually made). -/
def sendNotifications (env : SendEnv) (u : UserData)
    (msg eventId userId : String) (daysUntil : Int) (timeOfDay : String)
    (today : GDate) (L : Ledger) : Ledger × List NotificationResult :=
  (methodsOf u).foldl
    (processMethod env u msg eventId userId daysUntil timeOfDay today) (L, [])

/-! ## Scheduler driver (`processReminders` and the three slot triggers) -/

/-- The per-event offset selection of `processReminders`: the fallback
list unless `reminderConfig?.isEnabled && reminderConfig?.reminders?.length
> 0`, in which case the `daysBefore` of the rules whose `timeOfDay` matches
the current slot. -/
def daysToCheckFor (ev : Event) (timeOfDay : String) (fallback : List Int) :
    List Int :=
  match ev.reminderConfig with
  | some cfg =>
    if cfg.isEnabled && decide (0 < cfg.reminders.length) then
      (cfg.reminders.filter (fun r => r.timeOfDay == timeOfDay)).map
        (fun r => r.daysBefore)
    else fallback
  | none => fallback

/-- The body of the `for (const event of events)` loop of
`processReminders`.  The source discards the value `sendNotifications`
returns; the model accumulates it as the observable trace of provider
calls.  An exception from `getDaysUntilEvent` propagates (`Except.error`)
and aborts the invocation, as an uncaught throw does. -/
def processEvent (env : SendEnv) (users : String → Option UserData)
    (timeOfDay : String) (fallback : List Int) (today : GDate)
    (st : Ledger × List NotificationResult) (ev : Event) :
    Except String (Ledger × List NotificationResult) :=
  match ev.userId with
  | none => Except.ok st
  | some uid =>
    match getDaysUntilEvent ev today with
    | Except.error e => Except.error e
    | Except.ok daysUntil =>
      let daysToCheck := daysToCheckFor ev timeOfDay fallback
      if daysToCheck.contains daysUntil then
        match users uid with
        | none => Except.ok st
        | some u =>
          let msg := generateMessage ev daysUntil timeOfDay
          let out := sendNotifications env u msg ev.id uid daysUntil timeOfDay
            today st.1
          Except.ok (out.1, st.2 ++ out.2)
      else Except.ok st

/-- `processReminders(timeOfDay, fallbackDaysToCheck)` over a loaded list
of events, with `today` already normalised to start of day. -/
def processReminders (env : SendEnv) (users : String → Option UserData)
    (timeOfDay : String) (fallback : List Int) (today : GDate)
    (events : List Event) (L : Ledger) :
    Except String (Ledger × List NotificationResult) :=
  events.foldlM (processEvent env users timeOfDay fallback today) (L, [])

/-- The 9 AM trigger: `processReminders('morning', [3, 1, 0])`. -/
def morningReminders (env : SendEnv) (users : String → Option UserData)
    (today : GDate) (events : List Event) (L : Ledger) :
    Except String (Ledger × List NotificationResult) :=
  processReminders env users "morning" [3, 1, 0] today events L

/-- The 2 PM trigger: `processReminders('afternoon', [0])`. -/
def afternoonReminders (env : SendEnv) (users : String → Option UserData)
    (today : GDate) (events : List Event) (L : Ledger) :
    Except String (Ledger × List NotificationResult) :=
  processReminders env users "afternoon" [0] today events L

/-- The 7 PM trigger: `processReminders('evening', [0])`. -/
def eveningReminders (env : SendEnv) (users : String → Option UserData)
    (today : GDate) (events : List Event) (L : Ledger) :
    Except String (Ledger × List NotificationResult) :=
  processReminders env users "evening" [0] today events L

/-! ## Role resolution (`src/src/hooks/useUserRole.ts`) -/

/-- A user profile document as read by the role hook (`role` may be absent
on the stored record). -/
structure AppUser where
  role : Option String
deriving DecidableEq, Repr

/-- The four hardcoded admin uids of `useUserRole.ts`. -/
def hardcodedAdminUids : List String :=
  ["TDH1R5QHqANIyPqyFM4nqKHs4xO2",
   "EQ9hokffU8OL6woznTD5iDIgvkH2",
   "VoGim24n4xX0gis2VziqHtNE4nR2",
   "7QrBTfO30RTXRLjBAiimOg79JF62"]

/-- The `isAdmin` computation of `useUserRole`: hardcoded-uid membership
(for a signed-in user) or a stored role equal to `'admin'`. -/
def isAdminOf (user : Option String) (userData : Option AppUser) : Bool :=
  let isHardcodedAdmin :=
    match user with
    | some uid => hardcodedAdminUids.contains uid
    | none => false
  let isAdminFromDb := (userData.bind (fun d => d.role)) == some "admin"
  isHardcodedAdmin || isAdminFromDb

/-! ## Concrete fixtures shared by the witnesses and counterexamples -/

/-- Scenario A event: `referenceDate = 2023-06-15`, Gregorian, recurring. -/
def evA : Event := ⟨"e1", some "u1", "Dad birthday", false, none, some ⟨2023, 6, 15⟩, none⟩

def todayA : GDate := ⟨2024, 6, 12⟩

/-- An environment in which every provider call succeeds. -/
def envOK : SendEnv :=
  ⟨fun _ _ => Except.ok (), fun _ _ => Except.ok (), fun _ _ => Except.ok ()⟩

/-- A user with a phone, no email, and no stored channel preference. -/
def uW : UserData := ⟨none, some "+15551112222", none⟩

def usersW : String → Option UserData :=
  fun uid => if uid == "u1" then some uW else none

def msgA : String := "📅 Heads up! Dad birthday is in 3 days. Start planning!"

/-- The ledger produced by the morning run on `[evA]` from an empty ledger. -/
def ledgerA : Ledger :=
  [("e1_3_morning_whatsapp_2024-06-12", sentEntry "u1" "e1" "whatsapp" msgA "morning" 3)]

/-- Scenario C user: channels `[email, sms]`, only the email destination
set. -/
def uC : UserData := ⟨some "a@b.example", none, some ["email", "sms"]⟩

/-- An alternate-calendar event whose Hebrew date is missing but whose
Gregorian date is present. -/
def evBad : Event := ⟨"e2", some "u1", "Yahrzeit", true, none, some ⟨2023, 6, 15⟩, none⟩

/-- An alternate-calendar event whose Hebrew date and Gregorian date are
both missing. -/
def evBad2 : Event := ⟨"e3", some "u1", "Yahrzeit", true, none, none, none⟩

/-- The ledger produced by the morning run on `[evBad]` from an empty
ledger. -/
def ledgerBad : Ledger :=
  [("e2_3_morning_whatsapp_2024-06-12",
    sentEntry "u1" "e2" "whatsapp" "📅 Heads up! Yahrzeit is in 3 days. Start planning!" "morning" 3)]

/-- An environment in which the SMS provider throws and the others
succeed. -/
def envErr : SendEnv :=
  ⟨fun _ _ => Except.ok (), fun _ _ => Except.error "Twilio: invalid number",
   fun _ _ => Except.ok ()⟩

/-- A user preferring `[sms, whatsapp]` with a phone set. -/
def uErr : UserData := ⟨none, some "+15553334444", some ["sms", "whatsapp"]⟩

/-- The custom rule configuration `[{0, morning}, {1, evening}]`, enabled. -/
def cfgRules : ReminderConfig := ⟨true, [⟨0, "morning"⟩, ⟨1, "evening"⟩]⟩

/-- An event carrying `cfgRules`. -/
def evRules : Event :=
  ⟨"e4", some "u1", "Anniversary", false, none, some ⟨2020, 1, 10⟩, some cfgRules⟩

/-- An event with no reminder configuration. -/
def evNoRules : Event :=
  ⟨"e5", some "u1", "Birthday", false, none, some ⟨2020, 1, 10⟩, none⟩

/-! ## Ledger and dispatch lemmas -/

theorem hasKey_cons (p : String × LogEntry) (L : Ledger) (k : String) :
    hasKey (p :: L) k = (p.1 == k || hasKey L k) := by
  simp [hasKey]

section Dispatch

variable (env : SendEnv) (u : UserData) (msg eid uid : String) (d : Int)
  (t : String) (td : GDate)

/-- A loop iteration either skips (the key exists) or prepends exactly its
own key, appending at most one result. -/
theorem processMethod_cases (st : Ledger × List NotificationResult) (m : String) :
    processMethod env u msg eid uid d t td st m = st ∨
    (hasKey st.1 (logKey eid d t m td) = false ∧
      ∃ e rs, processMethod env u msg eid uid d t td st m =
        ((logKey eid d t m td, e) :: st.1, st.2 ++ rs)) := by
  unfold processMethod
  by_cases hk : hasKey st.1 (logKey eid d t m td)
  · left; simp [hk]
  · right
    refine ⟨by simpa using hk, ?_⟩
    cases ha : channelAttempt env u m msg with
    | none =>
      exact ⟨sentEntry uid eid m msg t d, [], by simp [hk, ha]⟩
    | some r =>
      cases r with
      | ok v =>
        exact ⟨sentEntry uid eid m msg t d, [⟨m, true, none⟩], by simp [hk, ha]⟩
      | error e =>
        exact ⟨failedEntry uid eid m msg e, [⟨m, false, some e⟩], by simp [hk, ha]⟩

theorem processMethod_skip (st : Ledger × List NotificationResult) (m : String)
    (h : hasKey st.1 (logKey eid d t m td) = true) :
    processMethod env u msg eid uid d t td st m = st := by
  unfold processMethod
  simp [h]

theorem processMethod_mono (st : Ledger × List NotificationResult) (m k : String)
    (h : hasKey st.1 k = true) :
    hasKey (processMethod env u msg eid uid d t td st m).1 k = true := by
  rcases processMethod_cases env u msg eid uid d t td st m with hc | ⟨_, e, rs, hc⟩
  · rw [hc]; exact h
  · rw [hc, hasKey_cons]
    simp [h]

theorem processMethod_hasOwn (st : Ledger × List NotificationResult) (m : String) :
    hasKey (processMethod env u msg eid uid d t td st m).1
      (logKey eid d t m td) = true := by
  unfold processMethod
  by_cases hk : hasKey st.1 (logKey eid d t m td)
  · simp [hk]
  · cases ha : channelAttempt env u m msg with
    | none => simp [hk, ha, hasKey_cons]
    | some r => cases r <;> simp [hk, ha, hasKey_cons]

theorem processMethod_newKey (st : Ledger × List NotificationResult) (m k : String)
    (h : hasKey (processMethod env u msg eid uid d t td st m).1 k = true) :
    hasKey st.1 k = true ∨ k = logKey eid d t m td := by
  rcases processMethod_cases env u msg eid uid d t td st m with hc | ⟨_, e, rs, hc⟩
  · rw [hc] at h; exact Or.inl h
  · rw [hc, hasKey_cons] at h
    rcases Bool.or_eq_true_iff.mp h with h1 | h1
    · exact Or.inr (eq_of_beq h1).symm
    · exact Or.inl h1

/-! Lemmas about the whole `for (const method of methods)` loop. -/

theorem foldl_processMethod_mono (ms : List String)
    (st : Ledger × List NotificationResult) (k : String)
    (h : hasKey st.1 k = true) :
    hasKey ((ms.foldl (processMethod env u msg eid uid d t td) st)).1 k = true := by
  induction ms generalizing st with
  | nil => exact h
  | cons m ms ih =>
    exact ih _ (processMethod_mono env u msg eid uid d t td st m k h)

theorem foldl_processMethod_hasAll (ms : List String)
    (st : Ledger × List NotificationResult) (m : String) (hm : m ∈ ms) :
    hasKey ((ms.foldl (processMethod env u msg eid uid d t td) st)).1
      (logKey eid d t m td) = true := by
  induction ms generalizing st with
  | nil => cases hm
  | cons m0 ms ih =>
    rcases List.mem_cons.mp hm with rfl | hm'
    · exact foldl_processMethod_mono env u msg eid uid d t td ms _ _
        (processMethod_hasOwn env u msg eid uid d t td st m)
    · exact ih _ hm'

theorem foldl_processMethod_skipAll (ms : List String)
    (st : Ledger × List NotificationResult)
    (h : ∀ m ∈ ms, hasKey st.1 (logKey eid d t m td) = true) :
    ms.foldl (processMethod env u msg eid uid d t td) st = st := by
  induction ms with
  | nil => rfl
  | cons m0 ms ih =>
    rw [List.foldl_cons,
      processMethod_skip env u msg eid uid d t td st m0 (h m0 (by simp))]
    exact ih (fun m hm => h m (by simp [hm]))

theorem foldl_processMethod_newKeys (ms : List String)
    (st : Ledger × List NotificationResult) (k : String)
    (h : hasKey ((ms.foldl (processMethod env u msg eid uid d t td) st)).1 k = true) :
    hasKey st.1 k = true ∨ ∃ m ∈ ms, k = logKey eid d t m td := by
  induction ms generalizing st with
  | nil => exact Or.inl h
  | cons m0 ms ih =>
    rw [List.foldl_cons] at h
    rcases ih _ h with h1 | ⟨m, hm, hk⟩
    · rcases processMethod_newKey env u msg eid uid d t td st m0 k h1 with h2 | h2
      · exact Or.inl h2
      · exact Or.inr ⟨m0, by simp, h2⟩
    · exact Or.inr ⟨m, by simp [hm], hk⟩

/-! Lemmas about `sendNotifications`. -/

theorem sendNotifications_mono (L : Ledger) (k : String) (h : hasKey L k = true) :
    hasKey (sendNotifications env u msg eid uid d t td L).1 k = true :=
  foldl_processMethod_mono env u msg eid uid d t td (methodsOf u) (L, []) k h

theorem sendNotifications_hasAll (L : Ledger) (m : String) (hm : m ∈ methodsOf u) :
    hasKey (sendNotifications env u msg eid uid d t td L).1
      (logKey eid d t m td) = true :=
  foldl_processMethod_hasAll env u msg eid uid d t td (methodsOf u) (L, []) m hm

theorem sendNotifications_skipAll (L : Ledger)
    (h : ∀ m ∈ methodsOf u, hasKey L (logKey eid d t m td) = true) :
    sendNotifications env u msg eid uid d t td L = (L, []) :=
  foldl_processMethod_skipAll env u msg eid uid d t td (methodsOf u) (L, []) h

/-- Running `sendNotifications` a second time on the ledger the first run
produced changes nothing and makes no provider call. -/
theorem sendNotifications_idem (L : Ledger) :
    sendNotifications env u msg eid uid d t td
      (sendNotifications env u msg eid uid d t td L).1 =
      ((sendNotifications env u msg eid uid d t td L).1, []) :=
  sendNotifications_skipAll env u msg eid uid d t td _
    (fun m hm => sendNotifications_hasAll env u msg eid uid d t td L m hm)

end Dispatch

/-! ## Driver lemmas -/

section Driver

variable (env : SendEnv) (users : String → Option UserData) (t : String)
  (fb : List Int) (today : GDate)

theorem processEvent_mono (st st' : Ledger × List NotificationResult)
    (ev : Event) (k : String)
    (h : processEvent env users t fb today st ev = Except.ok st')
    (hk : hasKey st.1 k = true) : hasKey st'.1 k = true := by
  unfold processEvent at h
  split at h
  · cases Except.ok.inj h; exact hk
  · split at h
    · exact Except.noConfusion h
    · dsimp only at h
      split at h
      · split at h
        · cases Except.ok.inj h; exact hk
        · cases Except.ok.inj h
          exact sendNotifications_mono _ _ _ _ _ _ _ _ _ _ hk
      · cases Except.ok.inj h; exact hk

/-- If every ledger key of the first run's outcome is present in `L2`,
re-processing the event from `L2` is a no-op. -/
theorem processEvent_idem (st st' : Ledger × List NotificationResult)
    (L2 : Ledger) (x : List NotificationResult) (ev : Event)
    (h : processEvent env users t fb today st ev = Except.ok st')
    (hsub : ∀ k, hasKey st'.1 k = true → hasKey L2 k = true) :
    processEvent env users t fb today (L2, x) ev = Except.ok (L2, x) := by
  unfold processEvent at h ⊢
  split at h
  next huid => simp only [huid]
  next uid huid =>
    simp only [huid]
    split at h
    next e hdu => exact Except.noConfusion h
    next du hdu =>
      dsimp only at h
      split at h
      next hin =>
        rw [if_pos hin]
        split at h
        next hu => rfl
        next u0 hu =>
          cases Except.ok.inj h
          have hall : ∀ m ∈ methodsOf u0,
              hasKey L2 (logKey ev.id du t m today) = true := by
            intro m hm
            exact hsub _ (sendNotifications_hasAll env u0
              (generateMessage ev du t) ev.id uid du t today st.1 m hm)
          rw [sendNotifications_skipAll env u0 (generateMessage ev du t)
            ev.id uid du t today L2 hall]
          simp
      next hin => rw [if_neg hin]

theorem foldlM_processEvent_mono (events : List Event) :
    ∀ st st' k,
      List.foldlM (processEvent env users t fb today) st events = Except.ok st' →
      hasKey st.1 k = true → hasKey st'.1 k = true := by
  induction events with
  | nil =>
    intro st st' k h hk
    rw [List.foldlM_nil] at h
    cases Except.ok.inj h
    exact hk
  | cons ev evs ih =>
    intro st st' k h hk
    rw [List.foldlM_cons] at h
    cases hpe : processEvent env users t fb today st ev with
    | error e => rw [hpe] at h; exact Except.noConfusion h
    | ok stA =>
      rw [hpe] at h
      exact ih stA st' k h
        (processEvent_mono env users t fb today st stA ev k hpe hk)

theorem foldlM_processEvent_idem (events : List Event) :
    ∀ st st₁ y,
      List.foldlM (processEvent env users t fb today) st events = Except.ok st₁ →
      List.foldlM (processEvent env users t fb today) (st₁.1, y) events =
        Except.ok (st₁.1, y) := by
  induction events with
  | nil =>
    intro st st₁ y h
    rw [List.foldlM_nil] at h ⊢
    cases Except.ok.inj h
    rfl
  | cons ev evs ih =>
    intro st st₁ y h
    rw [List.foldlM_cons] at h
    cases hpe : processEvent env users t fb today st ev with
    | error e => rw [hpe] at h; exact Except.noConfusion h
    | ok stA =>
      rw [hpe] at h
      have hstep : processEvent env users t fb today (st₁.1, y) ev =
          Except.ok (st₁.1, y) :=
        processEvent_idem env users t fb today st stA st₁.1 y ev hpe
          (fun k hk => foldlM_processEvent_mono env users t fb today evs stA st₁ k h hk)
      rw [List.foldlM_cons, hstep]
      exact ih stA st₁ y h

end Driver

/-! ## Claim theorems -/

/-- C1: whenever a ledger entry already exists under an
(event, offset, slot, channel, day) key — regardless of its status — the
dispatch loop skips the key without attempting delivery; consequently a
second Scheduler Driver invocation for the same slot and the same day,
started from the ledger the first run produced, makes zero provider calls
and creates no additional ledger entries. -/
theorem c1_second_run_is_noop :
    (∀ env u msg eid uid d t td st m,
      hasKey st.1 (logKey eid d t m td) = true →
      processMethod env u msg eid uid d t td st m = st) ∧
    (∀ env users t fb today events L L1 r1,
      processReminders env users t fb today events L = Except.ok (L1, r1) →
      processReminders env users t fb today events L1 = Except.ok (L1, [])) := by
  constructor
  · exact fun env u msg eid uid d t td st m h =>
      processMethod_skip env u msg eid uid d t td st m h
  · intro env users t fb today events L L1 r1 h
    unfold processReminders at h ⊢
    exact foldlM_processEvent_idem env users t fb today events (L, []) (L1, r1) [] h

/-- Witness for C1: the concrete morning run on `[evA]` fires once, and
rerunning it on the resulting ledger changes nothing and sends nothing. -/
theorem c1_second_run_is_noop_witness :
    processReminders envOK usersW "morning" [3, 1, 0] todayA [evA] ledgerA =
      Except.ok (ledgerA, []) :=
  c1_second_run_is_noop.2 envOK usersW "morning" [3, 1, 0] todayA [evA] []
    ledgerA [⟨"whatsapp", true, none⟩] (by decide)

/-- C2 counterexample: for the Gregorian recurring event with reference
date 2023-06-15 and today 2024-06-20, `getDaysUntilEvent` returns −5 —
a negative value, though the claim says the result is never negative. -/
theorem c2_counterexample :
    getDaysUntilEvent evA ⟨2024, 6, 20⟩ = Except.ok (-5) ∧ (-5 : Int) < 0 := by
  decide

/-- C2 (amended): `getDaysUntilEvent` performs no year rollover in either
branch; it returns the signed day difference to the candidate built in the
current (Hebrew or Gregorian) year, and is negative exactly when that
candidate is strictly before today. -/
theorem c2_no_rollover_sign (ev : Event) (today : GDate) (n c : Int)
    (h1 : getDaysUntilEvent ev today = Except.ok n)
    (h2 : currentYearCandidate ev today = Except.ok c) :
    n = c - absOfGDate today ∧ (n < 0 ↔ c < absOfGDate today) := by
  cases hub : ev.useHebrewDate with
  | true =>
    cases hhd : ev.hebrewDate with
    | some hd =>
      simp only [getDaysUntilEvent, hub, hhd] at h1
      simp only [currentYearCandidate, hub, hhd] at h2
      cases Except.ok.inj h1
      cases Except.ok.inj h2
      omega
    | none =>
      cases hgd : ev.gregorianDate with
      | none =>
        simp only [getDaysUntilEvent, hub, hhd, hgd] at h1
        exact Except.noConfusion h1
      | some g =>
        simp only [getDaysUntilEvent, hub, hhd, hgd] at h1
        simp only [currentYearCandidate, hub, hhd, hgd] at h2
        cases Except.ok.inj h1
        cases Except.ok.inj h2
        omega
  | false =>
    cases hgd : ev.gregorianDate with
    | none =>
      simp only [getDaysUntilEvent, hub, hgd] at h1
      exact Except.noConfusion h1
    | some g =>
      simp only [getDaysUntilEvent, hub, hgd] at h1
      simp only [currentYearCandidate, hub, hgd] at h2
      cases Except.ok.inj h1
      cases Except.ok.inj h2
      omega

/-- Witness for the amended C2 at the counterexample input. -/
theorem c2_no_rollover_sign_witness :
    (-5 : Int) = absOfGDate ⟨2024, 6, 15⟩ - absOfGDate ⟨2024, 6, 20⟩ ∧
    ((-5 : Int) < 0 ↔ absOfGDate ⟨2024, 6, 15⟩ < absOfGDate ⟨2024, 6, 20⟩) :=
  c2_no_rollover_sign evA ⟨2024, 6, 20⟩ (-5) (absOfGDate ⟨2024, 6, 15⟩)
    (by decide) (by decide)

/-- C3: for a user preferring `[email, sms]` with only the email
destination set, only the email channel is attempted (the results trace is
exactly the one email success) — but, contrary to the claim, a ledger
entry with status `sent` is nonetheless written under the sms key, because
the source logs the attempt outside the destination check. -/
theorem c3_missing_destination_still_logged :
    (sendNotifications envOK uC "msg" "e1" "u1" 3 "morning" todayA []).2 =
      [⟨"email", true, none⟩] ∧
    lookupEntry (sendNotifications envOK uC "msg" "e1" "u1" 3 "morning" todayA []).1
        (logKey "e1" 3 "morning" "sms" todayA) =
      some (sentEntry "u1" "e1" "sms" "msg" "morning" 3) := by
  decide

/-- C8 (Scenario A): reference date 2023-06-15, Gregorian, recurring,
today 2024-06-12 → `daysUntil = 3`; 3 is among the morning fallback
offsets {3, 1, 0}; the composed message is the "in 3 days" advance-notice
theme; and the morning driver run delivers exactly that message. -/
theorem c8_scenario_a :
    getDaysUntilEvent evA todayA = Except.ok 3 ∧
    (3 : Int) ∈ ([3, 1, 0] : List Int) ∧
    generateMessage evA 3 "morning" =
      "📅 Heads up! Dad birthday is in 3 days. Start planning!" ∧
    morningReminders envOK usersW todayA [evA] [] =
      Except.ok (ledgerA, [⟨"whatsapp", true, none⟩]) := by
  decide

/-- C5 counterexample: the morning run on the malformed alternate-calendar
event `evBad` (Hebrew date missing) is not skipped — it sends a WhatsApp
reminder computed from the event's Gregorian date. -/
theorem c5_counterexample :
    processReminders envOK usersW "morning" [3, 1, 0] todayA [evBad] [] =
      Except.ok (ledgerBad, [⟨"whatsapp", true, none⟩]) := by
  decide

/-- C5 (amended): a malformed alternate-calendar event (Hebrew date
absent) is not skipped with a warning: the day computation silently falls
back to the event's Gregorian date, behaving exactly as if
`useHebrewDate` were false — so a reminder may be sent for it — and when
the Gregorian date is also absent the error propagates and aborts the
whole batch, leaving the remaining events unprocessed. -/
theorem c5_malformed_event_not_skipped :
    (∀ ev today, ev.useHebrewDate = true → ev.hebrewDate = none →
      getDaysUntilEvent ev today =
        getDaysUntilEvent { ev with useHebrewDate := false } today) ∧
    (∀ env users t fb today ev events L uid,
      ev.userId = some uid → ev.useHebrewDate = true → ev.hebrewDate = none →
      ev.gregorianDate = none →
      processReminders env users t fb today (ev :: events) L =
        Except.error "TypeError: event.gregorianDate is undefined") := by
  constructor
  · intro ev today hub hhd
    simp [getDaysUntilEvent, hub, hhd]
  · intro env users t fb today ev events L uid huid hub hhd hgd
    unfold processReminders
    rw [List.foldlM_cons]
    have hpe : processEvent env users t fb today (L, []) ev =
        Except.error "TypeError: event.gregorianDate is undefined" := by
      unfold processEvent
      simp [huid, getDaysUntilEvent, hub, hhd, hgd]
    rw [hpe]
    rfl

/-- Witness for the amended C5: `evBad` falls back to its Gregorian date,
and the batch `[evBad2, evA]` aborts on `evBad2` before reaching `evA`. -/
theorem c5_malformed_event_not_skipped_witness :
    getDaysUntilEvent evBad todayA =
      getDaysUntilEvent { evBad with useHebrewDate := false } todayA ∧
    processReminders envOK usersW "morning" [3, 1, 0] todayA [evBad2, evA] [] =
      Except.error "TypeError: event.gregorianDate is undefined" :=
  ⟨c5_malformed_event_not_skipped.1 evBad todayA rfl rfl,
   c5_malformed_event_not_skipped.2 envOK usersW "morning" [3, 1, 0] todayA
     evBad2 [evA] [] "u1" rfl rfl rfl rfl⟩

/-- C6: with an enabled, non-empty rule configuration the offsets checked
for a slot are exactly the `daysBefore` values of the rules whose
`timeOfDay` equals the slot; with an absent, disabled, or empty
configuration the slot's fallback offsets are used; concretely the rules
`[{0, morning}, {1, evening}]` yield `[0]` in the morning slot and `[1]`
in the evening slot, and a rule-less event uses the fallbacks
`[3, 1, 0]`, `[0]`, `[0]`. -/
theorem c6_offset_selection :
    (∀ ev cfg t fb d, ev.reminderConfig = some cfg → cfg.isEnabled = true →
      cfg.reminders ≠ [] →
      (d ∈ daysToCheckFor ev t fb ↔
        ∃ r ∈ cfg.reminders, r.timeOfDay = t ∧ r.daysBefore = d)) ∧
    (∀ ev t fb, (ev.reminderConfig = none ∨
        ∃ cfg, ev.reminderConfig = some cfg ∧
          (cfg.isEnabled = false ∨ cfg.reminders = [])) →
      daysToCheckFor ev t fb = fb) ∧
    daysToCheckFor evRules "morning" [3, 1, 0] = [0] ∧
    daysToCheckFor evRules "evening" [0] = [1] ∧
    daysToCheckFor evNoRules "morning" [3, 1, 0] = [3, 1, 0] ∧
    daysToCheckFor evNoRules "afternoon" [0] = [0] ∧
    daysToCheckFor evNoRules "evening" [0] = [0] := by
  refine ⟨?_, ?_, by decide, by decide, by decide, by decide, by decide⟩
  · intro ev cfg t fb d hcfg hen hne
    simp only [daysToCheckFor, hcfg]
    have hcond : (cfg.isEnabled && decide (0 < cfg.reminders.length)) = true := by
      rw [hen]
      simpa [List.length_pos] using hne
    rw [if_pos hcond]
    simp only [List.mem_map, List.mem_filter, beq_iff_eq]
    constructor
    · rintro ⟨r, ⟨hr, ht⟩, hd⟩
      exact ⟨r, hr, ht, hd⟩
    · rintro ⟨r, hr, ht, hd⟩
      exact ⟨r, ⟨hr, ht⟩, hd⟩
  · intro ev t fb h
    rcases h with hnone | ⟨cfg, hcfg, hd | hd⟩
    · simp [daysToCheckFor, hnone]
    · simp [daysToCheckFor, hcfg, hd]
    · simp [daysToCheckFor, hcfg, hd]

/-- Witness for C6 at the concrete rule set and at a rule-less event. -/
theorem c6_offset_selection_witness :
    ((0 : Int) ∈ daysToCheckFor evRules "morning" [3, 1, 0] ↔
      ∃ r ∈ cfgRules.reminders, r.timeOfDay = "morning" ∧ r.daysBefore = 0) ∧
    daysToCheckFor evNoRules "morning" [3, 1, 0] = [3, 1, 0] :=
  ⟨c6_offset_selection.1 evRules cfgRules "morning" [3, 1, 0] 0 rfl rfl
      (by decide),
   c6_offset_selection.2.1 evNoRules "morning" [3, 1, 0] (Or.inl rfl)⟩

/-- C9: a user record with no stored notification-channel list defaults to
exactly the WhatsApp (chat) channel; with a phone set and a fresh key the
dispatcher makes exactly one provider call, via WhatsApp, and records the
attempt under the whatsapp key. -/
theorem c9_default_channel_whatsapp (env : SendEnv) (u : UserData)
    (msg eid uid : String) (d : Int) (t : String) (td : GDate) (L : Ledger)
    (p : String) (hnm : u.notificationMethods = none) (hp : u.phone = some p)
    (hfresh : hasKey L (logKey eid d t "whatsapp" td) = false) :
    methodsOf u = ["whatsapp"] ∧
    ((sendNotifications env u msg eid uid d t td L).2).map
      (fun r => r.method) = ["whatsapp"] ∧
    hasKey (sendNotifications env u msg eid uid d t td L).1
      (logKey eid d t "whatsapp" td) = true := by
  have hm : methodsOf u = ["whatsapp"] := by simp [methodsOf, hnm]
  refine ⟨hm, ?_,
    sendNotifications_hasAll env u msg eid uid d t td L "whatsapp"
      (by simp [hm])⟩
  unfold sendNotifications
  rw [hm]
  simp only [List.foldl_cons, List.foldl_nil]
  unfold processMethod
  rw [if_neg (by simp [hfresh])]
  have hca : channelAttempt env u "whatsapp" msg =
      some (env.sendWhatsApp p msg) := by
    simp [channelAttempt, hp]
  rw [hca]
  cases env.sendWhatsApp p msg <;> simp

/-- Witness for C9 at the concrete preference-less user `uW`. -/
theorem c9_default_channel_whatsapp_witness :
    methodsOf uW = ["whatsapp"] ∧
    ((sendNotifications envOK uW "hi" "e1" "u1" 0 "evening" todayA []).2).map
      (fun r => r.method) = ["whatsapp"] ∧
    hasKey (sendNotifications envOK uW "hi" "e1" "u1" 0 "evening" todayA []).1
      (logKey "e1" 0 "evening" "whatsapp" todayA) = true :=
  c9_default_channel_whatsapp envOK uW "hi" "e1" "u1" 0 "evening" todayA []
    "+15551112222" rfl rfl (by decide)

/-! Helper lemmas for the failure-isolation claim. -/

theorem lookupEntry_cons_self (k : String) (e : LogEntry) (L : Ledger) :
    lookupEntry ((k, e) :: L) k = some e := by
  simp [lookupEntry, List.find?_cons]

theorem lookupEntry_cons_ne (k' k : String) (e : LogEntry) (L : Ledger)
    (h : (k' == k) = false) :
    lookupEntry ((k', e) :: L) k = lookupEntry L k := by
  simp [lookupEntry, List.find?_cons, h]

theorem processMethod_preserves_lookup (env : SendEnv) (u : UserData)
    (msg eid uid : String) (d : Int) (t : String) (td : GDate)
    (st : Ledger × List NotificationResult) (m k : String)
    (h : hasKey st.1 k = true) :
    lookupEntry (processMethod env u msg eid uid d t td st m).1 k =
      lookupEntry st.1 k := by
  rcases processMethod_cases env u msg eid uid d t td st m with
    hc | ⟨hfresh, e, rs, hc⟩
  · rw [hc]
  · rw [hc]
    apply lookupEntry_cons_ne
    cases hx : (logKey eid d t m td == k) with
    | false => rfl
    | true =>
      rw [eq_of_beq hx] at hfresh
      rw [h] at hfresh
      exact Bool.noConfusion hfresh

theorem foldl_processMethod_preserves_lookup (env : SendEnv) (u : UserData)
    (msg eid uid : String) (d : Int) (t : String) (td : GDate)
    (ms : List String) :
    ∀ st k, hasKey st.1 k = true →
      lookupEntry ((ms.foldl (processMethod env u msg eid uid d t td) st)).1 k =
        lookupEntry st.1 k := by
  induction ms with
  | nil => intro st k h; rfl
  | cons m ms ih =>
    intro st k h
    rw [List.foldl_cons,
      ih _ k (processMethod_mono env u msg eid uid d t td st m k h)]
    exact processMethod_preserves_lookup env u msg eid uid d t td st m k h

theorem processMethod_write_failed (env : SendEnv) (u : UserData)
    (msg eid uid : String) (d : Int) (t : String) (td : GDate)
    (st : Ledger × List NotificationResult) (m err : String)
    (hfresh : hasKey st.1 (logKey eid d t m td) = false)
    (hca : channelAttempt env u m msg = some (Except.error err)) :
    processMethod env u msg eid uid d t td st m =
      ((logKey eid d t m td, failedEntry uid eid m msg err) :: st.1,
        st.2 ++ [⟨m, false, some err⟩]) := by
  unfold processMethod
  rw [if_neg (by simp [hfresh]), hca]

theorem processEvent_ok (env : SendEnv) (users : String → Option UserData)
    (t : String) (fb : List Int) (today : GDate)
    (st : Ledger × List NotificationResult) (ev : Event)
    (h : ∃ n, getDaysUntilEvent ev today = Except.ok n) :
    ∃ st', processEvent env users t fb today st ev = Except.ok st' := by
  obtain ⟨n, hn⟩ := h
  unfold processEvent
  cases huid : ev.userId with
  | none => exact ⟨st, rfl⟩
  | some uid =>
    simp only [hn]
    by_cases hin : (daysToCheckFor ev t fb).contains n
    · rw [if_pos hin]
      cases hu : users uid with
      | none => exact ⟨st, rfl⟩
      | some u0 => exact ⟨_, rfl⟩
    · rw [if_neg hin]
      exact ⟨st, rfl⟩

theorem foldlM_processEvent_ok (env : SendEnv)
    (users : String → Option UserData) (t : String) (fb : List Int)
    (today : GDate) (events : List Event) :
    ∀ st, (∀ ev ∈ events, ∃ n, getDaysUntilEvent ev today = Except.ok n) →
      ∃ out, List.foldlM (processEvent env users t fb today) st events =
        Except.ok out := by
  induction events with
  | nil => intro st _; exact ⟨st, rfl⟩
  | cons ev evs ih =>
    intro st h
    obtain ⟨stA, hA⟩ := processEvent_ok env users t fb today st ev (h ev (by simp))
    obtain ⟨out, hout⟩ := ih stA (fun e he => h e (by simp [he]))
    exact ⟨out, by rw [List.foldlM_cons, hA]; exact hout⟩

/-- C4: when a provider call throws for one (event, offset, channel) unit,
a `failed` ledger entry carrying the error detail is recorded under that
unit's key and survives to the end of the channel loop; every other
preferred channel is still processed (each ends with its key in the
ledger); and a channel failure never aborts the driver — the run returns
`ok` whenever every event's day computation succeeds. -/
theorem c4_channel_failure_isolated :
    (∀ env u msg eid uid d t td L m ms err,
      methodsOf u = ms → m ∈ ms → ms.Nodup →
      (∀ m' ∈ ms, logKey eid d t m' td = logKey eid d t m td → m' = m) →
      hasKey L (logKey eid d t m td) = false →
      channelAttempt env u m msg = some (Except.error err) →
      lookupEntry (sendNotifications env u msg eid uid d t td L).1
          (logKey eid d t m td) = some (failedEntry uid eid m msg err) ∧
      ∀ m'' ∈ ms, hasKey (sendNotifications env u msg eid uid d t td L).1
          (logKey eid d t m'' td) = true) ∧
    (∀ env users t fb today events L,
      (∀ ev ∈ events, ∃ n, getDaysUntilEvent ev today = Except.ok n) →
      ∃ out, processReminders env users t fb today events L = Except.ok out) := by
  constructor
  · intro env u msg eid uid d t td L m ms err hms hm hnd hinj hfresh hca
    obtain ⟨l₁, l₂, rfl⟩ := List.append_of_mem hm
    have hdisj : l₁.Disjoint (m :: l₂) := (List.nodup_append.mp hnd).2.2
    have hml₁ : m ∉ l₁ := fun hmem => hdisj hmem (List.mem_cons_self m l₂)
    have hfresh₁ : hasKey
        ((l₁.foldl (processMethod env u msg eid uid d t td) (L, []))).1
        (logKey eid d t m td) = false := by
      cases hx : hasKey
          ((l₁.foldl (processMethod env u msg eid uid d t td) (L, []))).1
          (logKey eid d t m td) with
      | false => rfl
      | true =>
        rcases foldl_processMethod_newKeys env u msg eid uid d t td l₁ (L, [])
            _ hx with h1 | ⟨m', hm', hk⟩
        · exact absurd h1 (by simp [hfresh])
        · have hmm : m' = m :=
            hinj m' (List.mem_append.mpr (Or.inl hm')) hk.symm
          exact absurd (hmm ▸ hm') hml₁
    have hstep : processMethod env u msg eid uid d t td
        (l₁.foldl (processMethod env u msg eid uid d t td) (L, [])) m =
        ((logKey eid d t m td, failedEntry uid eid m msg err) ::
            (l₁.foldl (processMethod env u msg eid uid d t td) (L, [])).1,
          (l₁.foldl (processMethod env u msg eid uid d t td) (L, [])).2 ++
            [⟨m, false, some err⟩]) :=
      processMethod_write_failed env u msg eid uid d t td _ m err hfresh₁ hca
    have hsn : sendNotifications env u msg eid uid d t td L =
        l₂.foldl (processMethod env u msg eid uid d t td)
          (processMethod env u msg eid uid d t td
            (l₁.foldl (processMethod env u msg eid uid d t td) (L, [])) m) := by
      unfold sendNotifications
      rw [hms, List.foldl_append, List.foldl_cons]
    constructor
    · rw [hsn,
        foldl_processMethod_preserves_lookup env u msg eid uid d t td l₂ _ _
          (by rw [hstep]; simp [hasKey_cons]),
        hstep]
      exact lookupEntry_cons_self _ _ _
    · intro m'' hm''
      exact sendNotifications_hasAll env u msg eid uid d t td L m''
        (by rw [hms]; exact hm'')
  · intro env users t fb today events L h
    exact foldlM_processEvent_ok env users t fb today events (L, []) h

/-- Witness for C4: the SMS provider throws for user `uErr`; the failed
entry is recorded, the WhatsApp channel is still attempted, and a driver
run in the throwing environment still returns `ok`. -/
theorem c4_channel_failure_isolated_witness :
    (lookupEntry
        (sendNotifications envErr uErr "m" "e1" "u1" 3 "morning" todayA []).1
        (logKey "e1" 3 "morning" "sms" todayA) =
      some (failedEntry "u1" "e1" "sms" "m" "Twilio: invalid number") ∧
     ∀ m'' ∈ ["sms", "whatsapp"],
       hasKey (sendNotifications envErr uErr "m" "e1" "u1" 3 "morning" todayA []).1
         (logKey "e1" 3 "morning" m'' todayA) = true) ∧
    ∃ out, processReminders envErr usersW "morning" [3, 1, 0] todayA [evA] [] =
      Except.ok out :=
  ⟨c4_channel_failure_isolated.1 envErr uErr "m" "e1" "u1" 3 "morning" todayA
      [] "sms" ["sms", "whatsapp"] "Twilio: invalid number" rfl (by decide)
      (by decide) (by decide) (by decide) rfl,
   c4_channel_failure_isolated.2 envErr usersW "morning" [3, 1, 0] todayA
      [evA] [] (by
        intro ev hev
        rw [List.mem_singleton] at hev
        exact ⟨3, by rw [hev]; decide⟩)⟩

/-! Helper lemmas for next-occurrence monotonicity. -/

theorem hebElapsedDays_lb (y : Nat) : y ≤ hebElapsedDays (y + 1) := by
  unfold hebElapsedDays
  have hm : 12 * y ≤ (235 * (y + 1) - 234) / 19 :=
    (Nat.le_div_iff_mul_le (by norm_num)).mpr (by omega)
  dsimp only
  split <;> omega

theorem hebRosh_lb (y : Nat) : y ≤ hebRosh (y + 1) :=
  le_trans (hebElapsedDays_lb y) (Nat.le_add_right _ _)

theorem hebYearOfAux_spec (fuel : Nat) :
    ∀ y a, a + 1 ≤ y + fuel → a < hebRosh (hebYearOfAux fuel y a + 1) := by
  induction fuel with
  | zero =>
    intro y a h
    unfold hebYearOfAux
    have := hebRosh_lb y
    omega
  | succ fuel ih =>
    intro y a h
    unfold hebYearOfAux
    by_cases hc : hebRosh (y + 1) ≤ a
    · rw [if_pos hc]
      exact ih (y + 1) a (by omega)
    · rw [if_neg hc]
      omega

/-- Today is always strictly before next Rosh Hashanah: the year-search
result brackets the day from above. -/
theorem hebYearOf_bracket (t : Int) : t < hebYearStart (hebYearOf t + 1) := by
  have h1 : (t - hebEpoch).toNat <
      hebRosh (hebYearOf t + 1) := by
    unfold hebYearOf
    exact hebYearOfAux_spec ((t - hebEpoch).toNat + 1)
      (max 1 ((t - hebEpoch).toNat * 492480 / 179876755)) ((t - hebEpoch).toNat)
      (by have := Nat.le_max_left 1 ((t - hebEpoch).toNat * 492480 / 179876755)
          omega)
    -- the search is started with fuel exceeding the day count
  have h2 : t - hebEpoch ≤ ((t - hebEpoch).toNat : Int) := Int.self_le_toNat _
  unfold hebYearStart
  omega

theorem hebAbs_ge_start (y m d : Nat) : hebYearStart y ≤ hebAbs y m d := by
  unfold hebAbs
  omega

/-- C7: the next-occurrence computation never returns a past date — for
every day/month pair and every reference day, both source variants return
a date on or after the reference.  The first variant builds the candidate
in the current alternate year and advances one alternate year exactly when
the candidate's Gregorian equivalent is strictly before the reference's;
the second variant's ill-typed guard is constantly truthy, so it advances
unconditionally — in particular whenever the candidate is strictly before
the reference — and its result, lying in the next alternate year, is
strictly after the reference. -/
theorem c7_next_occurrence_monotonicity :
    (∀ day month t, t ≤ getNextHebrewOccurrence day month t) ∧
    (∀ day month t, t ≤ getNextHebrewOccurrenceV2 day month t) := by
  constructor
  · intro day month t
    unfold getNextHebrewOccurrence
    dsimp only
    by_cases hc : hebAbs (hebYearOf t) month day < t
    · rw [if_pos hc]
      have h1 := hebYearOf_bracket t
      have h2 := hebAbs_ge_start (hebYearOf t + 1) month day
      omega
    · rw [if_neg hc]
      omega
  · intro day month t
    unfold getNextHebrewOccurrenceV2
    dsimp only
    rw [if_pos (show hdateBeforeTruthy = true from rfl)]
    have h1 := hebYearOf_bracket t
    have h2 := hebAbs_ge_start (hebYearOf t + 1) month day
    omega

/-- C10: `useUserRole` reports `isAdmin = true` for a signed-in user
exactly when the uid is one of the four hardcoded admin uids or the loaded
record's role equals `'admin'`; in particular a hardcoded uid is an admin
even when the stored role is absent or `'user'`. -/
theorem c10_is_admin_iff :
    (∀ uid userData, isAdminOf (some uid) userData = true ↔
      (uid ∈ hardcodedAdminUids ∨
        userData.bind (fun da => da.role) = some "admin")) ∧
    isAdminOf (some "TDH1R5QHqANIyPqyFM4nqKHs4xO2") (some ⟨none⟩) = true ∧
    isAdminOf (some "TDH1R5QHqANIyPqyFM4nqKHs4xO2") (some ⟨some "user"⟩) = true := by
  refine ⟨?_, by decide, by decide⟩
  intro uid userData
  unfold isAdminOf
  simp

end FamilyDays
